import Mathlib

/-!
Verification model for the hunspell Go binding (`hunspell.go`) together with
the affix-dictionary engine it drives.  The binding layer (path checks,
error values, list conversion) is translated from the Go source; the engine
behind the cgo calls is not part of the repository's sources, so it is
modelled from the specification (each such definition carries a doc comment
beginning `Modelled from the spec:`).
-/

set_option maxRecDepth 8000

namespace HunspellModel

/-! ## Generic list utilities used by the model -/

/-- Split a character list on a separator character; the separator is not
kept.  Always returns at least one (possibly empty) chunk. -/
def splitOnChar (sep : Char) : List Char → List (List Char)
  | [] => [[]]
  | c :: cs =>
    let r := splitOnChar sep cs
    if c = sep then [] :: r
    else
      match r with
      | [] => [[c]]
      | x :: xs => (c :: x) :: xs

/-- `leadsWith pat cs` is true when `cs` begins with `pat`. -/
def leadsWith : List Char → List Char → Bool
  | [], _ => true
  | _ :: _, [] => false
  | p :: ps, c :: cs => p == c && leadsWith ps cs

/-- `trailsWith pat cs` is true when `cs` ends with `pat`. -/
def trailsWith (pat cs : List Char) : Bool :=
  leadsWith pat.reverse cs.reverse

/-- Levenshtein edit distance between two character lists. -/
def lev : List Char → List Char → Nat
  | [], ys => ys.length
  | x :: xs, [] => (x :: xs).length
  | x :: xs, y :: ys =>
    if x = y then lev xs ys
    else 1 + min (lev xs ys) (min (lev (x :: xs) ys) (lev xs (y :: ys)))
termination_by xs ys => xs.length + ys.length
decreasing_by all_goals simp_arith

/-- Deduplication keeping the first occurrence of each element, via an
accumulator of already-seen elements. -/
def dedupAux {α : Type} [DecidableEq α] : List α → List α → List α
  | _, [] => []
  | seen, x :: xs =>
    if x ∈ seen then dedupAux seen xs else x :: dedupAux (x :: seen) xs

/-- Deduplicate a list keeping the first occurrence of each element. -/
def dedupKeepFirst {α : Type} [DecidableEq α] (l : List α) : List α :=
  dedupAux [] l

/-- Insert an element into a list ordered by the boolean relation `le`. -/
def insertLE {α : Type} (le : α → α → Bool) (x : α) : List α → List α
  | [] => [x]
  | y :: ys => if le x y then x :: y :: ys else y :: insertLE le x ys

/-- Insertion sort by the boolean relation `le` (stable). -/
def sortLE {α : Type} (le : α → α → Bool) : List α → List α
  | [] => []
  | x :: xs => insertLE le x (sortLE le xs)

/-! ## Data model (§3 of the spec) -/

/-- Kind of an affix rule: applied at the front (`pfx`) or the back (`sfx`)
of a word. -/
inductive AffixKind : Type
  | pfx
  | sfx
deriving DecidableEq

/-- One atom of an affix-rule condition: the small regex-like pattern
language (a literal class of characters, possibly negated, or a wildcard)
scanned against a word end. -/
inductive CondAtom : Type
  | any
  | oneOf (neg : Bool) (cs : List Char)
deriving DecidableEq

/-- An affix rule: flag identifier, kind, strip string, add string,
condition pattern and cross-product eligibility. -/
structure AffixRule : Type where
  flag : String
  kind : AffixKind
  strip : String
  add : String
  cond : List CondAtom
  cross : Bool
deriving DecidableEq

/-- A root dictionary entry: the word, its affix-rule flags, and an
optional morphological annotation string. -/
structure Root : Type where
  word : String
  flags : List String
  morph : String
deriving DecidableEq

/-- Data recovered from an affix source: the rule table, the suggestion
alphabet (TRY) and the common-confusion replacement table (REP). -/
structure AffData : Type where
  rules : List AffixRule
  tryChars : List Char
  reps : List (String × String)
deriving DecidableEq

/-- One successful derivation explaining a surface word: the recovered
root together with the stripped prefix/suffix rules (when any). -/
structure Derivation : Type where
  root : Root
  pfxRule : Option AffixRule
  sfxRule : Option AffixRule
deriving DecidableEq

/-- The dictionary state owned by a spelling checker: affix rule table and
suggestion data fixed at construction, base roots, run-time added roots and
run-time removed words. -/
structure Spell : Type where
  rules : List AffixRule
  tryChars : List Char
  reps : List (String × String)
  base : List Root
  runtime : List Root
  removed : List String
deriving DecidableEq

/-- The checker state holding no roots and no rules at all. -/
def emptySpell : Spell :=
  ⟨[], [], [], [], [], []⟩

/-! ## Parsing of dictionary and affix sources

Modelled from the spec: the repository delegates file parsing to the
underlying hunspell engine, whose sources are not part of the repository;
§3/§4.1/§6 of the spec describe the root-entry grammar (word, optional
`/flags`) and the affix grammar (rules with condition patterns, malformed
rule definitions being a `FormatError`). -/

/-- Parse the body of a `[...]`-class in a condition pattern: characters up
to the closing bracket, returning them and the rest of the input.  Fails
when the bracket is never closed. -/
def takeToRB : List Char → Option (List Char × List Char)
  | [] => none
  | c :: rest =>
    if c = ']' then some ([], rest)
    else (takeToRB rest).map (fun p => (c :: p.1, p.2))

/-- Fuelled parser for a condition pattern: `.` is a wildcard, `[abc]` a
class, `[^abc]` a negated class, any other character a literal. -/
def parseCondA : Nat → List Char → Option (List CondAtom)
  | _, [] => some []
  | 0, _ :: _ => none
  | fuel + 1, c :: rest =>
    if c = '.' then (parseCondA fuel rest).map (CondAtom.any :: ·)
    else if c = '[' then
      match takeToRB rest with
      | some (cls, rest') =>
        match cls with
        | '^' :: cs => (parseCondA fuel rest').map (CondAtom.oneOf true cs :: ·)
        | cs => (parseCondA fuel rest').map (CondAtom.oneOf false cs :: ·)
      | none => none
    else (parseCondA fuel rest).map (CondAtom.oneOf false [c] :: ·)

/-- Parse a condition pattern (see `parseCondA`). -/
def parseCond (cs : List Char) : Option (List CondAtom) :=
  parseCondA cs.length cs

/-- Split a line into whitespace-separated tokens. -/
def tokenize (line : List Char) : List (List Char) :=
  (splitOnChar ' ' line).filter (fun t => t ≠ [])

/-- Modelled from the spec: one line of the affix grammar — `TRY`
(suggestion alphabet), `REP` (confusion replacement pair) or a
`PFX`/`SFX` rule line `kind flag cross strip add condition` with `0`
denoting an empty strip/add; a blank line is skipped and any other line is
malformed (the spec's FormatError). -/
def parseAffLine (d : AffData) (line : List Char) : Option AffData :=
  match tokenize line with
  | [] => some d
  | t :: args =>
    if t = ("TRY").data then
      match args with
      | [cs] => some { d with tryChars := d.tryChars ++ cs }
      | _ => none
    else if t = ("REP").data then
      match args with
      | [x, y] => some { d with reps := d.reps ++ [(String.mk x, String.mk y)] }
      | _ => none
    else if t = ("PFX").data ∨ t = ("SFX").data then
      match args with
      | [flag, cross, strip, add, cond] =>
        match parseCond cond with
        | some atoms =>
          if cross = ['Y'] ∨ cross = ['N'] then
            some { d with rules := d.rules ++
              [⟨String.mk flag,
                (if t = ("PFX").data then AffixKind.pfx else AffixKind.sfx),
                (if strip = ['0'] then "" else String.mk strip),
                (if add = ['0'] then "" else String.mk add),
                atoms, cross = ['Y']⟩] }
          else none
        | none => none
      | _ => none
    else none

/-- Modelled from the spec: parse a whole affix source, line by line; any
malformed rule definition makes the whole source malformed. -/
def parseAff (content : String) : Option AffData :=
  (splitOnChar '\n' content.data).foldlM parseAffLine ⟨[], [], []⟩

/-- Modelled from the spec: one root entry of the dictionary grammar —
`word` or `word/flags` (each flag a single character); an entry with an
empty word or extra separators is malformed. -/
def parseDicLine (line : List Char) : Option Root :=
  match splitOnChar '/' line with
  | [w] => if w = [] then none else some ⟨String.mk w, [], ""⟩
  | [w, f] =>
    if w = [] then none
    else some ⟨String.mk w, f.map (fun c => String.mk [c]), ""⟩
  | _ => none

/-- Modelled from the spec: parse a root-word-list source (blank lines
skipped); all entries must parse or the source is malformed. -/
def parseDic (content : String) : Option (List Root) :=
  ((splitOnChar '\n' content.data).filter (fun l => l ≠ [])).mapM parseDicLine

/-! ## The matching engine (§4.1–§4.3)

Modelled from the spec: condition matching, affix stripping and the
analysis direction of the Word Form Expander live in the hunspell library,
outside the repository's sources. -/

/-- Whether a condition atom accepts one character. -/
def atomMatches : CondAtom → Char → Bool
  | CondAtom.any, _ => true
  | CondAtom.oneOf neg cs, c => if neg then !(cs.contains c) else cs.contains c

/-- Whether a condition pattern matches the final characters of a word. -/
def condMatchesEnd (cond : List CondAtom) (w : List Char) : Bool :=
  decide (cond.length ≤ w.length) &&
    (List.zipWith atomMatches cond (w.drop (w.length - cond.length))).all id

/-- Whether a condition pattern matches the initial characters of a word. -/
def condMatchesStart (cond : List CondAtom) (w : List Char) : Bool :=
  decide (cond.length ≤ w.length) &&
    (List.zipWith atomMatches cond (w.take cond.length)).all id

/-- Look a word up in a root list (first match wins, load order). -/
def lookupRoot (roots : List Root) (w : String) : Option Root :=
  roots.find? (fun r => r.word == w)

/-- Modelled from the spec: single-suffix-strip analysis — for each suffix
rule whose add string ends the word, recover the candidate root by removing
the add string and restoring the strip string, then require the rule's
condition to hold at the end of the root and the root to carry the rule's
flag. -/
def sfxDerivs (roots : List Root) (rules : List AffixRule) (wc : List Char) :
    List Derivation :=
  rules.filterMap fun r =>
    if r.kind = AffixKind.sfx && trailsWith r.add.data wc then
      let rc := wc.take (wc.length - r.add.data.length) ++ r.strip.data
      if condMatchesEnd r.cond rc then
        match lookupRoot roots (String.mk rc) with
        | some rt => if rt.flags.contains r.flag then some ⟨rt, none, some r⟩ else none
        | none => none
      else none
    else none

/-- Modelled from the spec: single-prefix-strip analysis, the mirror image
of `sfxDerivs` at the front of the word. -/
def pfxDerivs (roots : List Root) (rules : List AffixRule) (wc : List Char) :
    List Derivation :=
  rules.filterMap fun r =>
    if r.kind = AffixKind.pfx && leadsWith r.add.data wc then
      let rc := r.strip.data ++ wc.drop r.add.data.length
      if condMatchesStart r.cond rc then
        match lookupRoot roots (String.mk rc) with
        | some rt => if rt.flags.contains r.flag then some ⟨rt, some r, none⟩ else none
        | none => none
      else none
    else none

/-- Modelled from the spec: cross-product analysis — strip one prefix rule
and one suffix rule simultaneously; both rules must be cross-product
eligible, both conditions must hold on the recovered root and the root must
carry both flags. -/
def crossDerivs (roots : List Root) (rules : List AffixRule) (wc : List Char) :
    List Derivation :=
  (rules.filter (fun p => p.kind = AffixKind.pfx && p.cross)).flatMap fun p =>
    (rules.filter (fun r => r.kind = AffixKind.sfx && r.cross)).filterMap fun r =>
      if leadsWith p.add.data wc && trailsWith r.add.data wc &&
          decide (p.add.data.length + r.add.data.length ≤ wc.length) then
        let mid := (wc.drop p.add.data.length).take
          (wc.length - p.add.data.length - r.add.data.length)
        let rc := p.strip.data ++ mid ++ r.strip.data
        if condMatchesStart p.cond rc && condMatchesEnd r.cond rc then
          match lookupRoot roots (String.mk rc) with
          | some rt =>
            if rt.flags.contains p.flag && rt.flags.contains r.flag then
              some ⟨rt, some p, some r⟩
            else none
          | none => none
        else none
      else none

/-- Modelled from the spec: all successful derivations of a surface word —
zero-affix direct match first, then single-suffix, single-prefix and
cross-product strips (§4.3, strip depth capped at 2). -/
def analyses (roots : List Root) (rules : List AffixRule) (w : String) :
    List Derivation :=
  (match lookupRoot roots w with
    | some rt => [⟨rt, none, none⟩]
    | none => []) ++
  sfxDerivs roots rules w.data ++ pfxDerivs roots rules w.data ++
  crossDerivs roots rules w.data

/-! ## Checker (§4.4) -/

/-- All roots visible to queries: base roots followed by run-time added
roots. -/
def dictRoots (s : Spell) : List Root :=
  s.base ++ s.runtime

/-- Modelled from the spec: a word is correct iff it has not been removed
at run time and at least one derivation (direct root match included)
explains it; run-time added words are ordinary roots in `dictRoots`. -/
def Spell.IsCorrect (s : Spell) (w : String) : Bool :=
  if w ∈ s.removed then false
  else !(analyses (dictRoots s) s.rules w).isEmpty

/-- Render one derivation as an analysis string: the stem, the root's
morphological tags and the flags of the matched affix rules. -/
def derivTag (o : Option AffixRule) : String :=
  match o with
  | some r => " fl:" ++ r.flag
  | none => ""

/-- The analysis string of one derivation. -/
def derivMorph (d : Derivation) : String :=
  "st:" ++ d.root.word ++
    (if d.root.morph = "" then "" else " " ++ d.root.morph) ++
    derivTag d.pfxRule ++ derivTag d.sfxRule

/-- Modelled from the spec: morphological analysis — one string per
successful derivation, the empty list (not an error) for an unrecognized
word. -/
def Spell.Analyze (s : Spell) (w : String) : List String :=
  if w ∈ s.removed then []
  else (analyses (dictRoots s) s.rules w).map derivMorph

/-- Modelled from the spec: stems — the recovered root of each derivation,
duplicates removed preserving first-seen order. -/
def Spell.Stem (s : Spell) (w : String) : List String :=
  if w ∈ s.removed then []
  else dedupKeepFirst ((analyses (dictRoots s) s.rules w).map (fun d => d.root.word))

/-! ## Suggester (§4.5)

Modelled from the spec: candidate generation by edit-distance-1 operations
plus a replacement pass, filtering through `IsCorrect`, ranking by edit
distance then lexical order, and deduplication keeping the first occurrence
after sorting. -/

/-- All single-character deletions of a word. -/
def deletions : List Char → List (List Char)
  | [] => []
  | c :: cs => cs :: (deletions cs).map (c :: ·)

/-- All adjacent-character transpositions of a word. -/
def transposes : List Char → List (List Char)
  | [] => []
  | [_] => []
  | a :: b :: cs => (b :: a :: cs) :: (transposes (b :: cs)).map (a :: ·)

/-- All single-character substitutions over the alphabet `alpha`. -/
def substitutions (alpha : List Char) : List Char → List (List Char)
  | [] => []
  | c :: cs => alpha.map (· :: cs) ++ (substitutions alpha cs).map (c :: ·)

/-- All single-character insertions over the alphabet `alpha`. -/
def insertions (alpha : List Char) : List Char → List (List Char)
  | [] => alpha.map ([·])
  | c :: cs => alpha.map (· :: c :: cs) ++ (insertions alpha cs).map (c :: ·)

/-- All splits of a word into two non-empty halves. -/
def splitCands (w : List Char) : List (List Char × List Char) :=
  (List.range (w.length - 1)).map fun i => (w.take (i + 1), w.drop (i + 1))

/-- All single applications of the replacement `pat → sub` at one position
of the word (the confusion-pattern pass). -/
def replsAt (pat sub : List Char) : List Char → List (List Char)
  | [] => []
  | c :: rest =>
    let tails := (replsAt pat sub rest).map (c :: ·)
    if pat ≠ [] && leadsWith pat (c :: rest) then
      (sub ++ (c :: rest).drop pat.length) :: tails
    else tails

/-- Strict lexicographic order on character lists. -/
def strLtB : List Char → List Char → Bool
  | [], [] => false
  | [], _ :: _ => true
  | _ :: _, [] => false
  | a :: as, b :: bs => if a = b then strLtB as bs else decide (a < b)

/-- Ranking relation for suggestions: edit distance to the query word
ascending, then lexical order as the final tie-break. -/
def suggLE (w : String) (a b : String) : Bool :=
  let da := lev w.data a.data
  let db := lev w.data b.data
  decide (da < db) || (decide (da = db) && (strLtB a.data b.data || a == b))

/-- Modelled from the spec: ranked, deduplicated suggestions for a word;
the pipeline runs only when the word is incorrect (suggestions are defined
for misspellings only), generating edit-distance-1 candidates and
replacement-pass candidates filtered through `IsCorrect`, plus two-word
splits whose halves are each correct. -/
def Spell.Suggest (s : Spell) (w : String) : List String :=
  if s.IsCorrect w then []
  else
    let wc := w.data
    let pool :=
      ((deletions wc ++ transposes wc ++ substitutions s.tryChars wc ++
          insertions s.tryChars wc).map String.mk ++
        (s.reps.flatMap fun p => replsAt p.1.data p.2.data wc).map String.mk).filter
        (fun c => s.IsCorrect c)
    let halves := (splitCands wc).filterMap fun ab =>
      if s.IsCorrect (String.mk ab.1) && s.IsCorrect (String.mk ab.2) then
        some (String.mk (ab.1 ++ ' ' :: ab.2))
      else none
    dedupKeepFirst (sortLE (suggLE w) (pool ++ halves))

/-! ## Run-time mutations (§4.2, §7) -/

/-- Modelled from the spec: `Add` inserts the word into the run-time root
set with no flags (last write shadowing any earlier run-time entry) and
clears any earlier removal of it; the engine reports success as a boolean
(it accepts every well-formed insertion). -/
def Spell.Add (s : Spell) (w : String) : Bool × Spell :=
  (true,
    { s with
      runtime := ⟨w, [], ""⟩ :: s.runtime.filter (fun r => r.word ≠ w)
      removed := s.removed.filter (fun x => x ≠ w) })

/-- Modelled from the spec: `AddWithAffix` inserts the word carrying the
flags and tags of the example word's entry; it reports failure when the
example is not in the dictionary. -/
def Spell.AddWithAffix (s : Spell) (w exWord : String) : Bool × Spell :=
  match lookupRoot (dictRoots s) exWord with
  | some rt =>
    (true,
      { s with
        runtime := ⟨w, rt.flags, rt.morph⟩ :: s.runtime.filter (fun r => r.word ≠ w)
        removed := s.removed.filter (fun x => x ≠ w) })
  | none => (false, s)

/-- Modelled from the spec: `Remove` deletes the word from the run-time
root set and marks it removed so that it is no longer correct; removal of
an absent word is a no-op, never an error. -/
def Spell.Remove (s : Spell) (w : String) : Bool × Spell :=
  (true,
    { s with
      runtime := s.runtime.filter (fun r => r.word ≠ w)
      removed := w :: s.removed })

/-- Modelled from the spec: the engine half of `AddDict` — parse the extra
root-word-list source and merge its entries into the live root dictionary,
atomically: a malformed source yields the C convention result 1 with the
state unchanged, a well-formed one yields 0 with the entries appended. -/
def hunspellAddDic (s : Spell) (content : String) : Int × Spell :=
  match parseDic content with
  | some roots => (0, { s with base := s.base ++ roots })
  | none => (1, s)

/-! ## The Go binding layer (translated from `hunspell.go`) -/

/-- The shape of Go's `*os.PathError`: operation, path and underlying
error message. -/
structure PathErr : Type where
  op : String
  path : String
  err : String
deriving DecidableEq

/-- A Go `error` value as produced by this package: either an
`*os.PathError` or a plain `errors.New` string. -/
inductive GoError : Type
  | pathErr (e : PathErr)
  | str (msg : String)
deriving DecidableEq

/-- A filesystem: each path either holds a file with some content or is
absent. -/
def FS : Type := String → Option String

/-- Model of `os.Stat` restricted to what the binding observes: it
succeeds on an existing path and otherwise yields the `*os.PathError` with
`Op` equal to `stat` (Go's `os.Stat` reports every failure, the empty path
included, as an `*os.PathError`, which is why the binding's unchecked type
assertions cannot fail). -/
def osStat (fs : FS) (path : String) : Option PathErr :=
  if path = "" then some ⟨"stat", path, "no such file or directory"⟩
  else
    match fs path with
    | some _ => none
    | none => some ⟨"stat", path, "no such file or directory"⟩

/-- The file content the engine reads from a path: the empty path and an
absent file both read as empty. -/
def readFile (fs : FS) (path : String) : String :=
  if path = "" then "" else (fs path).getD ""

/-- Modelled from the spec: `Hunspell_create` — build the dictionary state
from the affix and dictionary sources at the given paths.  The binding
exposes no failure channel for construction contents (it returns the
handle unconditionally), so the constructor is total, recovering empty
tables from sources that do not parse. -/
def hunspellCreate (fs : FS) (affix dict : String) : Spell :=
  let ad := (parseAff (readFile fs affix)).getD ⟨[], [], []⟩
  let roots := (parseDic (readFile fs dict)).getD []
  { rules := ad.rules, tryChars := ad.tryChars, reps := ad.reps,
    base := roots, runtime := [], removed := [] }

/-- Model of `filepath.Join` for the two-component uses in `Paths`. -/
def fpJoin (a b : String) : String :=
  if a = "" then b else if b = "" then a else a ++ "/" ++ b

/-- `Paths` from the Go source: an error when `lang` is empty but `path`
is not; the joined `.aff`/`.dic` paths when `lang` is non-empty; the empty
pair otherwise. -/
def Paths (path lang : String) : Except GoError (String × String) :=
  if lang = "" && path ≠ "" then Except.error (GoError.str ("missing lang"))
  else if lang ≠ "" then
    Except.ok (fpJoin path (lang ++ (".aff")), fpJoin path (lang ++ (".dic")))
  else Except.ok ("", "")

/-- `NewSpellPaths` from the Go source: stat each non-empty path, on a
stat failure return the `*os.PathError` with `Op` rewritten to `open` and
no checker; otherwise hand both paths to `Hunspell_create` and return the
checker with a nil error. -/
def NewSpellPaths (fs : FS) (affix dict : String) : Option Spell × Option GoError :=
  match (if affix = "" then none else osStat fs affix) with
  | some e => (none, some (GoError.pathErr { e with op := "open" }))
  | none =>
    match (if dict = "" then none else osStat fs dict) with
    | some e => (none, some (GoError.pathErr { e with op := "open" }))
    | none => (some (hunspellCreate fs affix dict), none)

/-- `NewSpell` from the Go source: derive the affix/dictionary paths with
`Paths` and delegate to `NewSpellPaths`. -/
def NewSpell (fs : FS) (path lang : String) : Option Spell × Option GoError :=
  match Paths path lang with
  | Except.error e => (none, some e)
  | Except.ok (aff, dic) => NewSpellPaths fs aff dic

/-- `AddDict` from the Go source, parameterized by the engine call: stat
the path, on failure return the `*os.PathError` with `Op` rewritten to
`open` and leave the state untouched; otherwise invoke the engine and
report `failed to add dictionary` exactly when it returns 1. -/
def addDictWith (engine : Spell → String → Int × Spell) (s : Spell) (fs : FS)
    (path : String) : Option GoError × Spell :=
  match osStat fs path with
  | some e => (some (GoError.pathErr { e with op := "open" }), s)
  | none =>
    let r := engine s (readFile fs path)
    if r.1 = 1 then (some (GoError.str ("failed to add dictionary")), r.2)
    else (none, r.2)

/-- `AddDict` from the Go source with the spec-modelled engine merge. -/
def Spell.AddDict (s : Spell) (fs : FS) (path : String) : Option GoError × Spell :=
  addDictWith hunspellAddDic s fs path

/-- `goStrings` from the Go source: a `nil` slice when the C list length
is zero, otherwise the first `n` entries copied into a Go slice. -/
def goStrings (src : List String) (n : Nat) : List String :=
  if n = 0 then [] else src.take n

/-- A query call in state-passing form: `Suggest` returns its result and
leaves the dictionary state untouched (queries only read the state). -/
def suggestOp (s : Spell) (w : String) : List String × Spell :=
  (s.Suggest w, s)

/-! ## Helper lemmas -/

lemma mem_dedupAux {α : Type} [DecidableEq α] {a : α} :
    ∀ {seen l : List α}, a ∈ dedupAux seen l → a ∈ l := by
  intro seen l
  induction l generalizing seen with
  | nil => simp [dedupAux]
  | cons x xs ih =>
    intro h
    rw [dedupAux] at h
    by_cases hx : x ∈ seen
    · simp only [hx, if_pos] at h
      exact List.mem_cons_of_mem _ (ih h)
    · simp only [hx, if_neg, not_false_iff] at h
      rcases List.mem_cons.mp h with h1 | h2
      · exact h1 ▸ List.mem_cons_self _ _
      · exact List.mem_cons_of_mem _ (ih h2)

lemma mem_dedupKeepFirst {α : Type} [DecidableEq α] {a : α} {l : List α}
    (h : a ∈ dedupKeepFirst l) : a ∈ l :=
  mem_dedupAux h

lemma mem_insertLE {α : Type} {le : α → α → Bool} {a x : α} :
    ∀ {l : List α}, a ∈ insertLE le x l → a = x ∨ a ∈ l := by
  intro l
  induction l with
  | nil => simp [insertLE]
  | cons y ys ih =>
    intro h
    rw [insertLE] at h
    by_cases hxy : le x y = true
    · simp only [hxy, if_pos] at h
      rcases List.mem_cons.mp h with h1 | h2
      · exact Or.inl h1
      · exact Or.inr h2
    · simp only [hxy, if_neg, not_false_iff] at h
      rcases List.mem_cons.mp h with h1 | h2
      · exact Or.inr (h1 ▸ List.mem_cons_self _ _)
      · rcases ih h2 with h3 | h4
        · exact Or.inl h3
        · exact Or.inr (List.mem_cons_of_mem _ h4)

lemma mem_sortLE {α : Type} {le : α → α → Bool} {a : α} :
    ∀ {l : List α}, a ∈ sortLE le l → a ∈ l := by
  intro l
  induction l with
  | nil => simp [sortLE]
  | cons x xs ih =>
    intro h
    rw [sortLE] at h
    rcases mem_insertLE h with h1 | h2
    · exact h1 ▸ List.mem_cons_self _ _
    · exact List.mem_cons_of_mem _ (ih h2)

lemma lookupRoot_isSome_of_mem {roots : List Root} {rt : Root} (h : rt ∈ roots) :
    (lookupRoot roots rt.word).isSome = true := by
  rw [lookupRoot, List.find?_isSome]
  exact ⟨rt, h, by simp⟩

lemma analyses_ne_nil_of_mem {roots : List Root} {rules : List AffixRule}
    {rt : Root} (h : rt ∈ roots) :
    (analyses roots rules rt.word).isEmpty = false := by
  obtain ⟨d, hd⟩ := Option.isSome_iff_exists.mp (lookupRoot_isSome_of_mem h)
  rw [analyses, hd]
  simp

/-! ## Concrete fixtures for witnesses and counterexamples -/

/-- The empty filesystem: no path exists. -/
def fsNone : FS := fun _ => none

/-- A filesystem holding one extra dictionary source with root `colour`. -/
def fsDict : FS := fun p => if p = "extra.dic" then some ("colour") else none

/-- A filesystem holding an affix file whose content is not affix grammar,
next to a well-formed dictionary file. -/
def fsMalformed : FS := fun p =>
  if p = "bad.aff" then some ("BOGUS LINE")
  else if p = "ok.dic" then some ("hello") else none

/-- An engine stub whose `add_dic` call returns 2. -/
def engTwo : Spell → String → Int × Spell := fun s _ => (2, s)

/-- A filesystem holding one dictionary source whose content is malformed
as a root-word list (an entry with two flag separators). -/
def fsBadDic : FS := fun p => if p = "bad.dic" then some ("x/y/z") else none

/-! ## Claim theorems -/

/-- Claim C1: for every word `w`, after a successful `Add w` the word is
correct, and after a subsequent `Remove w` on the same checker it is not. -/
theorem add_then_remove_isCorrect (s : Spell) (w : String) :
    (s.Add w).1 = true ∧ (s.Add w).2.IsCorrect w = true ∧
    ((s.Add w).2.Remove w).2.IsCorrect w = false := by
  refine ⟨rfl, ?_, ?_⟩
  · have hmem : (⟨w, [], ""⟩ : Root) ∈ dictRoots (s.Add w).2 := by
      simp [Spell.Add, dictRoots]
    have h1 : (analyses (dictRoots (s.Add w).2) (s.Add w).2.rules w).isEmpty = false :=
      analyses_ne_nil_of_mem hmem
    rw [Spell.IsCorrect, if_neg (by simp [Spell.Add]), h1]
    rfl
  · rw [Spell.IsCorrect, if_pos (by simp [Spell.Remove])]

/-- Claim C5: removing a word that was never inserted reports no error and
leaves `IsCorrect` unchanged for every other word. -/
theorem remove_absent_frame (s : Spell) (w v : String) (hv : v ≠ w)
    (hw : ∀ r ∈ s.runtime, r.word ≠ w) :
    (s.Remove w).1 = true ∧ (s.Remove w).2.IsCorrect v = s.IsCorrect v := by
  refine ⟨rfl, ?_⟩
  have hrt : s.runtime.filter (fun r => r.word ≠ w) = s.runtime :=
    List.filter_eq_self.mpr (fun r hr => by simpa using hw r hr)
  simp only [Spell.IsCorrect, Spell.Remove, dictRoots]
  rw [hrt]
  simp [List.mem_cons, hv]

/-- Witness for claim C5 at a concrete checker and words. -/
theorem remove_absent_frame_witness :
    (Spell.Remove ⟨[], [], [], [⟨"dog", [], ""⟩], [], []⟩ "cat").1 = true ∧
    (Spell.Remove ⟨[], [], [], [⟨"dog", [], ""⟩], [], []⟩ "cat").2.IsCorrect "dog" =
      Spell.IsCorrect ⟨[], [], [], [⟨"dog", [], ""⟩], [], []⟩ "dog" :=
  remove_absent_frame ⟨[], [], [], [⟨"dog", [], ""⟩], [], []⟩ "cat" "dog"
    (by decide) (by intro r hr; cases hr)

/-- Claim C6: word-level queries are total over the dictionary state — an
unrecognized word yields the empty analysis and stem lists (never a
failure), and `goStrings` yields the nil slice for a zero-length list. -/
theorem queries_total_on_unrecognized (s : Spell) (w : String) (xs : List String)
    (h : s.IsCorrect w = false) :
    s.Analyze w = [] ∧ s.Stem w = [] ∧ goStrings xs 0 = [] := by
  by_cases hr : w ∈ s.removed
  · exact ⟨by simp [Spell.Analyze, hr], by simp [Spell.Stem, hr], rfl⟩
  · rw [Spell.IsCorrect, if_neg hr] at h
    have h2 : analyses (dictRoots s) s.rules w = [] := by
      rw [← List.isEmpty_iff]
      simpa using h
    exact ⟨by simp [Spell.Analyze, hr, h2],
      by simp [Spell.Stem, hr, h2, dedupKeepFirst, dedupAux], rfl⟩

/-- Witness for claim C6 at a concrete checker and word. -/
theorem queries_total_on_unrecognized_witness :
    Spell.Analyze emptySpell "zzz" = [] ∧ Spell.Stem emptySpell "zzz" = [] ∧
    goStrings [] 0 = [] :=
  queries_total_on_unrecognized emptySpell "zzz" [] (by decide)

/-- Claim C7: two `Suggest` calls with no intervening mutation return
identical ordered output — a query returns its list and leaves the
dictionary state untouched, so the second call answers from the same
state. -/
theorem suggest_idempotent_pure (s : Spell) (w : String) :
    (suggestOp s w).1 = (suggestOp (suggestOp s w).2 w).1 :=
  rfl

/-- Claim C8: construction with no dictionary at all succeeds, returning a
checker with zero roots on which every word is incorrect until roots are
added at run time. -/
theorem newSpell_empty_valid (fs : FS) :
    NewSpell fs "" "" = (some emptySpell, none) ∧ emptySpell.base = [] ∧
    ∀ w, emptySpell.IsCorrect w = false := by
  refine ⟨rfl, rfl, fun w => ?_⟩
  simp [Spell.IsCorrect, emptySpell, dictRoots, analyses, lookupRoot,
    sfxDerivs, pfxDerivs, crossDerivs, List.find?]

/-- Claim C2: `Suggest` never returns the queried word itself when that
word is incorrect, and returns the empty list when it is correct. -/
theorem suggest_excludes_misspelled_self (s : Spell) (w : String) :
    (s.IsCorrect w = false → w ∉ s.Suggest w) ∧
    (s.IsCorrect w = true → s.Suggest w = []) := by
  constructor
  · intro h hmem
    rw [Spell.Suggest] at hmem
    simp only [h, Bool.false_eq_true, if_false] at hmem
    have h1 := mem_sortLE (mem_dedupKeepFirst hmem)
    rcases List.mem_append.mp h1 with hp | hh
    · have hcorr := (List.mem_filter.mp hp).2
      rw [h] at hcorr
      cases hcorr
    · rcases List.mem_filterMap.mp hh with ⟨ab, hab, heq⟩
      by_cases hc :
          (s.IsCorrect (String.mk ab.1) && s.IsCorrect (String.mk ab.2)) = true
      · rw [if_pos hc] at heq
        have hdata : ab.1 ++ ' ' :: ab.2 = w.data :=
          congrArg String.data (Option.some.inj heq)
        rw [splitCands] at hab
        rcases List.mem_map.mp hab with ⟨i, hi, habi⟩
        have hlen := congrArg List.length hdata
        rw [← habi] at hlen
        simp only [List.length_append, List.length_cons, List.length_take,
          List.length_drop] at hlen
        have hi' := List.mem_range.mp hi
        omega
      · rw [if_neg hc] at heq
        cases heq
  · intro h
    rw [Spell.Suggest, if_pos h]

/-- Witness for claim C2 at a concrete checker and word. -/
theorem suggest_excludes_misspelled_self_witness :
    "ab" ∉ Spell.Suggest emptySpell "ab" :=
  (suggest_excludes_misspelled_self emptySpell "ab").1 (by decide)

/-- Claim C3 (amended): construction fails with an error and no checker
whenever a requested (non-empty) source path is missing, and the checker
is non-nil exactly when the error is nil; construction does not inspect
file contents, so it cannot fail on a malformed affix grammar. -/
theorem construction_missing_source_fails (fs : FS) (affix dict : String) :
    ((NewSpellPaths fs affix dict).1.isSome ↔ (NewSpellPaths fs affix dict).2 = none) ∧
    (affix ≠ "" → fs affix = none →
      ∃ e, NewSpellPaths fs affix dict = (none, some (GoError.pathErr e))) ∧
    (dict ≠ "" → fs dict = none →
      ∃ e, NewSpellPaths fs affix dict = (none, some (GoError.pathErr e))) := by
  refine ⟨?_, ?_, ?_⟩
  · unfold NewSpellPaths
    cases h1 : (if affix = "" then none else osStat fs affix) with
    | some e => simp
    | none =>
      cases h2 : (if dict = "" then none else osStat fs dict) with
      | some e => simp
      | none => simp
  · intro ha hfa
    have h1 : (if affix = "" then none else osStat fs affix) =
        some ⟨"stat", affix, "no such file or directory"⟩ := by
      rw [if_neg ha, osStat, if_neg ha, hfa]
    refine ⟨⟨"open", affix, "no such file or directory"⟩, ?_⟩
    unfold NewSpellPaths
    rw [h1]
  · intro hd hfd
    have h2 : (if dict = "" then none else osStat fs dict) =
        some ⟨"stat", dict, "no such file or directory"⟩ := by
      rw [if_neg hd, osStat, if_neg hd, hfd]
    unfold NewSpellPaths
    cases h1 : (if affix = "" then none else osStat fs affix) with
    | some e => exact ⟨{ e with op := "open" }, rfl⟩
    | none =>
      rw [h2]
      exact ⟨⟨"open", dict, "no such file or directory"⟩, rfl⟩

/-- Witness for the amended claim C3 at a concrete missing source. -/
theorem construction_missing_source_fails_witness :
    ∃ e, NewSpellPaths fsNone "a.aff" "b.dic" = (none, some (GoError.pathErr e)) :=
  (construction_missing_source_fails fsNone "a.aff" "b.dic").2.1 (by decide) rfl

/-- Counterexample to claim C3 as stated: an affix source that exists but
whose grammar is malformed (it does not parse as affix grammar) still
yields a successful construction — `NewSpellPaths` returns a checker and a
nil error, because construction only checks file existence. -/
theorem construction_succeeds_on_malformed_affix :
    parseAff ("BOGUS LINE") = none ∧
    (NewSpellPaths fsMalformed "bad.aff" "ok.dic").2 = none ∧
    ((NewSpellPaths fsMalformed "bad.aff" "ok.dic").1).isSome = true :=
  ⟨by decide, by decide, by decide⟩

/-- Claim C4: a successful `AddDict` merges the entries of the source into
the live root dictionary (any parsed root, `colour` say, satisfies
`IsCorrect` afterwards); an absent source makes `AddDict` return an error,
a malformed source makes it return the `failed to add dictionary` error,
and every failing `AddDict` leaves the dictionary state exactly as it was
(atomic merge-or-fail). -/
theorem addDict_merge_or_fail (s : Spell) (fs : FS) (path content : String)
    (roots : List Root) (rt : Root) (hp : path ≠ "") (hc : fs path = some content)
    (hroots : parseDic content = some roots) (hrt : rt ∈ roots)
    (hrem : rt.word ∉ s.removed) :
    (s.AddDict fs path).1 = none ∧
    (s.AddDict fs path).2.IsCorrect rt.word = true ∧
    (∀ (s' : Spell) (fs' : FS) (p' : String) (e : GoError),
      (s'.AddDict fs' p').1 = some e → (s'.AddDict fs' p').2 = s') ∧
    (∀ (s' : Spell) (fs' : FS) (p' : String), fs' p' = none →
      ∃ e, (s'.AddDict fs' p').1 = some e ∧ (s'.AddDict fs' p').2 = s') ∧
    (∀ (s' : Spell) (fs' : FS) (p' c : String), p' ≠ "" → fs' p' = some c →
      parseDic c = none →
      (s'.AddDict fs' p').1 = some (GoError.str ("failed to add dictionary")) ∧
      (s'.AddDict fs' p').2 = s') := by
  have hstat : osStat fs path = none := by
    rw [osStat, if_neg hp, hc]
  have hread : readFile fs path = content := by
    rw [readFile, if_neg hp, hc]
    rfl
  have heval : s.AddDict fs path = (none, { s with base := s.base ++ roots }) := by
    simp [Spell.AddDict, addDictWith, hstat, hread, hunspellAddDic, hroots]
  refine ⟨by rw [heval], ?_, ?_, ?_, ?_⟩
  · rw [heval]
    have hmem : rt ∈ dictRoots { s with base := s.base ++ roots } := by
      simp [dictRoots, hrt]
    have h1 : (analyses (dictRoots { s with base := s.base ++ roots })
        { s with base := s.base ++ roots }.rules rt.word).isEmpty = false :=
      analyses_ne_nil_of_mem hmem
    rw [Spell.IsCorrect, if_neg (by simpa using hrem), h1]
    rfl
  · intro s' fs' p' e he
    cases hs : osStat fs' p' with
    | some e2 => simp [Spell.AddDict, addDictWith, hs]
    | none =>
      cases hr : parseDic (readFile fs' p') with
      | some roots2 =>
        simp [Spell.AddDict, addDictWith, hs, hunspellAddDic, hr] at he
      | none =>
        simp [Spell.AddDict, addDictWith, hs, hunspellAddDic, hr]
  · intro s' fs' p' hnone
    have hs : osStat fs' p' = some ⟨"stat", p', "no such file or directory"⟩ := by
      by_cases hp' : p' = ""
      · rw [osStat, if_pos hp']
      · rw [osStat, if_neg hp', hnone]
    exact ⟨GoError.pathErr ⟨"open", p', "no such file or directory"⟩,
      by simp [Spell.AddDict, addDictWith, hs],
      by simp [Spell.AddDict, addDictWith, hs]⟩
  · intro s' fs' p' c hp' hc' hparse
    have hs : osStat fs' p' = none := by
      rw [osStat, if_neg hp', hc']
    have hr : readFile fs' p' = c := by
      rw [readFile, if_neg hp', hc']
      rfl
    constructor <;>
      simp [Spell.AddDict, addDictWith, hs, hr, hunspellAddDic, hparse]

/-- Witness for claim C4: merging a source holding root `colour` into the
empty checker succeeds and makes `colour` correct, while a malformed
source yields the `failed to add dictionary` error and an unchanged
checker. -/
theorem addDict_merge_or_fail_witness :
    (Spell.AddDict emptySpell fsDict "extra.dic").1 = none ∧
    (Spell.AddDict emptySpell fsDict "extra.dic").2.IsCorrect "colour" = true ∧
    (Spell.AddDict emptySpell fsBadDic "bad.dic").1 =
      some (GoError.str ("failed to add dictionary")) ∧
    (Spell.AddDict emptySpell fsBadDic "bad.dic").2 = emptySpell :=
  ⟨(addDict_merge_or_fail emptySpell fsDict "extra.dic" ("colour")
      [⟨"colour", [], ""⟩] ⟨"colour", [], ""⟩ (by decide) rfl (by decide)
      (by decide) (by decide)).1,
    (addDict_merge_or_fail emptySpell fsDict "extra.dic" ("colour")
      [⟨"colour", [], ""⟩] ⟨"colour", [], ""⟩ (by decide) rfl (by decide)
      (by decide) (by decide)).2.1,
    ((addDict_merge_or_fail emptySpell fsDict "extra.dic" ("colour")
      [⟨"colour", [], ""⟩] ⟨"colour", [], ""⟩ (by decide) rfl (by decide)
      (by decide) (by decide)).2.2.2.2 emptySpell fsBadDic "bad.dic" ("x/y/z")
      (by decide) rfl (by decide)).1,
    ((addDict_merge_or_fail emptySpell fsDict "extra.dic" ("colour")
      [⟨"colour", [], ""⟩] ⟨"colour", [], ""⟩ (by decide) rfl (by decide)
      (by decide) (by decide)).2.2.2.2 emptySpell fsBadDic "bad.dic" ("x/y/z")
      (by decide) rfl (by decide)).2⟩

/-- Claim C9: once the path exists, the `AddDict` wrapper reports the
`failed to add dictionary` error exactly when the engine call returns 1;
any other return value is reported as success. -/
theorem addDict_error_iff_engine_one (eng : Spell → String → Int × Spell)
    (s : Spell) (fs : FS) (path : String) (h : osStat fs path = none) :
    ((addDictWith eng s fs path).1 =
        some (GoError.str ("failed to add dictionary")) ↔
      (eng s (readFile fs path)).1 = 1) ∧
    ((eng s (readFile fs path)).1 ≠ 1 → (addDictWith eng s fs path).1 = none) := by
  constructor
  · by_cases h1 : (eng s (readFile fs path)).1 = 1
    · simp [addDictWith, h, h1]
    · simp [addDictWith, h, h1]
  · intro h1
    simp [addDictWith, h, h1]

/-- Witness for claim C9: an engine returning 2 is reported as success. -/
theorem addDict_error_iff_engine_one_witness :
    (addDictWith engTwo emptySpell fsDict "extra.dic").1 = none :=
  (addDict_error_iff_engine_one engTwo emptySpell fsDict "extra.dic"
    (by decide)).2 (by decide)

/-- Claim C10: on every stat-failure branch of `NewSpellPaths` and
`AddDict` the returned error is the `os.Stat` path error with its `Op`
field rewritten to `open` (the dictionary state untouched in the `AddDict`
case); `os.Stat` failures are always path errors, so the downcast cannot
fail. -/
theorem stat_failure_path_error (fs : FS) (affix dict path : String) (s : Spell)
    (e : PathErr) :
    (affix ≠ "" → osStat fs affix = some e →
      NewSpellPaths fs affix dict =
        (none, some (GoError.pathErr { e with op := "open" }))) ∧
    ((if affix = "" then none else osStat fs affix) = none → dict ≠ "" →
      osStat fs dict = some e →
      NewSpellPaths fs affix dict =
        (none, some (GoError.pathErr { e with op := "open" }))) ∧
    (osStat fs path = some e →
      s.AddDict fs path = (some (GoError.pathErr { e with op := "open" }), s)) := by
  refine ⟨?_, ?_, ?_⟩
  · intro ha he
    unfold NewSpellPaths
    rw [if_neg ha, he]
  · intro h1 hd he
    unfold NewSpellPaths
    rw [h1, if_neg hd, he]
  · intro he
    rw [Spell.AddDict, addDictWith, he]

/-- Witness for claim C10 at a concrete missing affix path. -/
theorem stat_failure_path_error_witness :
    NewSpellPaths fsNone "missing.aff" "x.dic" =
      (none, some (GoError.pathErr
        ⟨"open", "missing.aff", "no such file or directory"⟩)) :=
  (stat_failure_path_error fsNone "missing.aff" "x.dic" "p" emptySpell
    ⟨"stat", "missing.aff", "no such file or directory"⟩).1 (by decide) rfl

end HunspellModel
